import Mathlib

/-!
Shallow embedding of the batch-translation core of MinecraftModsLocalizer:
`src/prepare.py` (extraction, chunking, validating retry loop),
`src/chatgpt.py` (the TranslationClient adapter), `src/jar.py` (map-mode
reassembly) and the constants of `src/init.py` / `src/provider.py`.

Python dicts are modelled as association lists kept in insertion order;
a dict assignment `m[k] = v` appends the pair, and `dictLookup` takes the
last binding, matching the overwrite semantics of assignment.  The backend
(a remote chat-completion call) is modelled as an oracle: for the retry
loop, a function from the attempt number to the returned line list; for
the client adapter, an explicit `BackendOutcome` value.
-/

namespace Localizer

/-- `MAX_ATTEMPTS` from `src/init.py` line 11. -/
def MAX_ATTEMPTS : Nat := 5

/-- Default `CHUNK_SIZE` from `src/provider.py` line 2. -/
def CHUNK_SIZE : Nat := 1

/-- The characters stripped by Python's `str.strip()` (the `str.isspace`
class). -/
def isPySpace (c : Char) : Bool :=
  let n := c.toNat
  n = 0x20 || (0x9 ≤ n && n ≤ 0xD) || (0x1C ≤ n && n ≤ 0x1F) ||
  n = 0x85 || n = 0xA0 || n = 0x1680 || (0x2000 ≤ n && n ≤ 0x200A) ||
  n = 0x2028 || n = 0x2029 || n = 0x202F || n = 0x205F || n = 0x3000

/-- Python's `not item.strip()`: the line is empty or all whitespace. -/
def isBlankLine (s : String) : Bool :=
  s.data.all isPySpace

/-- `[item for item in lines if item.strip()]` in `src/prepare.py`
lines 81-82. -/
def nonBlank (lines : List String) : List String :=
  lines.filter (fun s => !isBlankLine s)

/-- The character class of the regex `[぀-ヿ㐀-䶿一-鿿]`
in `src/prepare.py` line 23. -/
def targetScriptChar (c : Char) : Bool :=
  let n := c.toNat
  (0x3040 ≤ n && n ≤ 0x30FF) || (0x3400 ≤ n && n ≤ 0x4DBF) ||
  (0x4E00 ≤ n && n ≤ 0x9FFF)

/-- `re.search('[...ranges...]', value)` succeeds iff some character of the
value is in the target-script ranges. -/
def containsTargetScript (s : String) : Bool :=
  s.data.any targetScriptChar

/-- `key.startswith("_comment")` in `src/prepare.py` line 23. -/
def startsWithComment (k : String) : Bool :=
  List.isPrefixOf "_comment".data k.data

/-- The item loop of `extract_map_from_json` (`src/prepare.py` lines 22-24):
for each key/value pair, keep it iff the key does not start with
`"_comment"` and the value has no target-script character.  The JSON
object is modelled as its (insertion-ordered) item list. -/
def extract_map_from_json (content : List (String × String)) :
    List (String × String) :=
  content.foldl
    (fun collected kv =>
      if !startsWithComment kv.1 && !containsTargetScript kv.2 then
        collected ++ [kv]
      else collected)
    []

/-- Fuel-indexed worker for `split_list`: slices off the first `c` elements
while any remain.  The fuel starts at the list length; with `1 ≤ c` every
step consumes at least one element, so the fuel never runs out. -/
def splitListGo (c : Nat) : Nat → List α → List (List α)
  | _, [] => []
  | 0, _ :: _ => []
  | fuel + 1, a :: rest =>
      (a :: rest).take c :: splitListGo c fuel ((a :: rest).drop c)

/-- `split_list` from `src/prepare.py` lines 35-46: cut the list into
consecutive slices `big_list[i:i+c]` for `i = 0, c, 2c, ...`.
Python's `range` with step `c = 0` raises `ValueError`; the model returns
`[]` there, and every claim about `split_list` assumes `1 ≤ c`. -/
def split_list (c : Nat) (big_list : List α) : List (List α) :=
  splitListGo c big_list.length big_list

theorem splitListGo_nil (c fuel : Nat) : splitListGo c fuel ([] : List α) = [] := by
  cases fuel <;> rfl

theorem splitListGo_cons (c fuel : Nat) (a : α) (rest : List α) :
    splitListGo c (fuel + 1) (a :: rest) =
      (a :: rest).take c :: splitListGo c fuel ((a :: rest).drop c) := rfl

/-! ## The TranslationClient adapter (`src/chatgpt.py`)

`translate_with_chatgpt(split_target, timeout)` issues one blocking
chat-completion call.  Its observable outcome is one of: the call returns
a response with a non-empty `choices` list carrying a message `content`
string; the call returns but `choices`/`message` is empty (logged as an
invalid response); or the call raises (network, auth, rate limit, ...).
The wall-clock time the call took is outside the program; it enters the
model as the `elapsed` oracle, compared against `timeout` only in the
exception branch's logging (`src/chatgpt.py` lines 58-62). -/

/-- The three observable outcomes of the backend call. -/
inductive BackendOutcome where
  | success (content : String)
  | emptyResponse
  | exception (message : String)
deriving DecidableEq

/-- `translated_text.replace('\n', '')` (`src/chatgpt.py` line 53,
one-line branch): delete every newline character. -/
def removeNewlines (s : String) : String :=
  ⟨s.data.filter (fun c => c ≠ '\n')⟩

/-- The line-break characters of Python's `str.splitlines`. -/
def isLineBreakChar (c : Char) : Bool :=
  let n := c.toNat
  n = 0xA || n = 0xD || n = 0xB || n = 0xC ||
  n = 0x1C || n = 0x1D || n = 0x1E || n = 0x85 || n = 0x2028 || n = 0x2029

/-- Worker for `str.splitlines`: `cur` holds the current line reversed;
`"\r\n"` counts as a single break; no trailing empty line is produced. -/
def splitlinesGo (cur : List Char) : List Char → List (List Char)
  | [] => if cur.isEmpty then [] else [cur.reverse]
  | '\r' :: '\n' :: rest => cur.reverse :: splitlinesGo [] rest
  | c :: rest =>
      if isLineBreakChar c then cur.reverse :: splitlinesGo [] rest
      else splitlinesGo (c :: cur) rest

/-- Python's `translated_text.splitlines()` (`src/chatgpt.py` line 53,
multi-line branch). -/
def pySplitlines (s : String) : List String :=
  (splitlinesGo [] s.data).map (fun l => ⟨l⟩)

/-- Worker for `re.sub(r'(?<!\\)"', r'\\"', line)` (`src/chatgpt.py`
line 54): scan left to right, `prev` being the character of the ORIGINAL
string just before the current position (the lookbehind examines the
subject string, not the replacement output); a `"` not preceded by `\`
becomes `\"`. -/
def escapeQuotesGo (prev : Option Char) : List Char → List Char
  | [] => []
  | c :: rest =>
      if c = '"' ∧ prev ≠ some '\\' then
        '\\' :: '"' :: escapeQuotesGo (some c) rest
      else
        c :: escapeQuotesGo (some c) rest

/-- `re.sub(r'(?<!\\)"', r'\\"', line)` on a whole line (at position 0
there is no preceding character, so a leading `"` is escaped). -/
def escapeQuotes (s : String) : String :=
  ⟨escapeQuotesGo none s.data⟩

/-- `translate_with_chatgpt` (`src/chatgpt.py` lines 9-64), returning the
line list `result` together with the list of `logging.error` messages.
On success with more than one input line the content is split into lines;
with a single input line the newlines are deleted instead, yielding one
line; every line is then quote-escaped.  Both failure branches leave
`result = []` (initialised at line 11): no exception escapes to the
caller.  `elapsed` and `timeout` feed only the timeout log message of the
exception branch. -/
def translate_with_chatgpt (split_target : List String)
    (outcome : BackendOutcome) (elapsed timeout : Nat) :
    List String × List String :=
  match outcome with
  | .success content =>
      let raw :=
        if split_target.length > 1 then pySplitlines content
        else [removeNewlines content]
      (raw.map escapeQuotes, [])
  | .emptyResponse =>
      ([], ["Failed to get a valid response from the ChatGPT model."])
  | .exception msg =>
      ([],
        (if elapsed > timeout then
          ["Timeout reached while waiting for translation."]
        else []) ++ ["Error during translation: " ++ msg])

/-! ## The validating retry loop (`src/prepare.py` lines 61-98)

The backend is abstracted as an oracle `backend : Nat → List String`
giving the line list the client returns on each attempt number (the
client never raises, see above).  `chunkLoopGo` is the
`while attempts < MAX_ATTEMPTS` loop for one chunk, structurally
recursive on the number of remaining iterations; it returns the accepted
output (if any) together with the number of client calls made. -/

/-- One chunk's retry loop body, `remaining = MAX_ATTEMPTS - attempts`
iterations left.  Each iteration calls the client once; the attempt is
accepted iff the line counts match exactly, or — the fallback — the
non-blank line counts match (`src/prepare.py` lines 76-86). -/
def chunkLoopGo (backend : Nat → List String) (chunk : List String)
    (attempts : Nat) : Nat → Option (List String) × Nat
  | 0 => (none, 0)
  | remaining + 1 =>
      let translated := backend attempts
      if chunk.length = translated.length then
        (some translated, 1)
      else if (nonBlank chunk).length = (nonBlank translated).length then
        (some translated, 1)
      else
        let r := chunkLoopGo backend chunk (attempts + 1) remaining
        (r.1, r.2 + 1)

/-- The full retry loop for one chunk: `attempts` starts at 0, bound
`MAX_ATTEMPTS` (`src/prepare.py` lines 72-73). -/
def chunkLoop (backend : Nat → List String) (chunk : List String) :
    Option (List String) × Nat :=
  chunkLoopGo backend chunk 0 MAX_ATTEMPTS

/-- The entries the chunk merges into `result_map`: on acceptance
`for key, value in zip(split_target, translated_split_target)`
(`src/prepare.py` lines 77-78 and 84-85 — both acceptance branches zip
the FULL lists); an exhausted chunk merges nothing. -/
def chunkContribution (backend : Nat → List String) (chunk : List String) :
    List (String × String) :=
  match (chunkLoop backend chunk).1 with
  | some translated => chunk.zip translated
  | none => []

/-- `prepare_translation(targets)` (`src/prepare.py` lines 61-98) with the
chunk size `c` (read from `provide_chunk_size()`) and the per-chunk
backend oracle made explicit.  `result_map` is the association list of all
merged pairs in chunk order. -/
def prepare_translation (backend : List String → Nat → List String)
    (c : Nat) (targets : List String) : List (String × String) :=
  (split_list c targets).foldl
    (fun result_map chunk =>
      result_map ++ chunkContribution (backend chunk) chunk)
    []

/-! ## Map-mode reassembly (`src/jar.py` lines 38-72) -/

/-- Lookup in a Python dict modelled as an association list: the LAST
binding wins (assignment overwrites). -/
def dictLookup (m : List (String × String)) (k : String) : Option String :=
  m.foldl (fun acc p => if p.1 = k then some p.2 else acc) none

/-- `{json_key: translated_map[original] for json_key, original in
targets.items() if original in translated_map}` (`src/jar.py`
lines 57-58). -/
def translated_targets (targets tm : List (String × String)) :
    List (String × String) :=
  targets.filterMap (fun p => (dictLookup tm p.2).map (fun v => (p.1, v)))

/-- `{json_key: original for json_key, original in targets.items() if
original not in translated_map}` (`src/jar.py` lines 60-61). -/
def untranslated_items (targets tm : List (String × String)) :
    List (String × String) :=
  targets.filter (fun p => (dictLookup tm p.2).isNone)

/-- Boolean worker for "every `"` is immediately preceded by `\`":
`prev` is the previous character (none at the start of the line). -/
def noUnescapedQuoteGo (prev : Option Char) : List Char → Bool
  | [] => true
  | c :: rest =>
      (if c = '"' then prev == some '\\' else true) &&
      noUnescapedQuoteGo (some c) rest

/-- A line has no unescaped double quote: every `"` in it is immediately
preceded by a `\`. -/
def noUnescapedQuote (s : String) : Bool :=
  noUnescapedQuoteGo none s.data

/-! ## Lemmas about the chunker -/

theorem splitListGo_join (c : Nat) (hc : 1 ≤ c) :
    ∀ (fuel : Nat) (l : List α), l.length ≤ fuel →
      (splitListGo c fuel l).flatten = l := by
  intro fuel
  induction fuel with
  | zero =>
      intro l hl
      have : l = [] := List.eq_nil_of_length_eq_zero (Nat.le_zero.mp hl)
      subst this
      rfl
  | succ n ih =>
      intro l hl
      cases l with
      | nil => rfl
      | cons a rest =>
          rw [splitListGo_cons, List.flatten_cons, ih ((a :: rest).drop c)
            (by simp only [List.length_drop, List.length_cons] at *; omega)]
          exact List.take_append_drop c (a :: rest)

theorem ceil_div_step (c m : Nat) (hc : 1 ≤ c) (hm : 1 ≤ m) :
    (m - c + c - 1) / c + 1 = (m + c - 1) / c := by
  rw [show m + c - 1 = (m - 1) + c from by omega,
    Nat.add_div_right _ (show 0 < c by omega)]
  rcases le_or_lt m c with hmc | hmc
  · rw [show m - c + c - 1 = c - 1 from by omega,
      Nat.div_eq_of_lt (show c - 1 < c by omega),
      Nat.div_eq_of_lt (show m - 1 < c by omega)]
  · rw [show m - c + c - 1 = (m - c - 1) + c from by omega,
      show m - 1 = (m - c - 1) + c from by omega,
      Nat.add_div_right _ (show 0 < c by omega)]

theorem splitListGo_length (c : Nat) (hc : 1 ≤ c) :
    ∀ (fuel : Nat) (l : List α), l.length ≤ fuel →
      (splitListGo c fuel l).length = (l.length + c - 1) / c := by
  intro fuel
  induction fuel with
  | zero =>
      intro l hl
      have : l = [] := List.eq_nil_of_length_eq_zero (Nat.le_zero.mp hl)
      subst this
      simp [splitListGo]
      rw [Nat.div_eq_of_lt (show c - 1 < c by omega)]
  | succ n ih =>
      intro l hl
      cases l with
      | nil =>
          simp [splitListGo]
          rw [Nat.div_eq_of_lt (show c - 1 < c by omega)]
      | cons a rest =>
          rw [splitListGo_cons, List.length_cons, ih ((a :: rest).drop c)
            (by simp only [List.length_drop, List.length_cons] at *; omega),
            List.length_drop]
          exact ceil_div_step c (a :: rest).length hc (by simp)

theorem splitListGo_chunks (c : Nat) (hc : 1 ≤ c) :
    ∀ (fuel : Nat) (l : List α), l.length ≤ fuel →
      ∀ ch ∈ splitListGo c fuel l, ch.length ≤ c ∧ ch ≠ [] := by
  intro fuel
  induction fuel with
  | zero =>
      intro l hl ch hch
      have : l = [] := List.eq_nil_of_length_eq_zero (Nat.le_zero.mp hl)
      subst this
      simp [splitListGo] at hch
  | succ n ih =>
      intro l hl ch hch
      cases l with
      | nil => simp [splitListGo] at hch
      | cons a rest =>
          rw [splitListGo_cons] at hch
          rcases List.mem_cons.mp hch with h | h
          · subst h
            refine ⟨by simp, ?_⟩
            cases c with
            | zero => omega
            | succ m => simp [List.take]
          · exact ih ((a :: rest).drop c)
              (by simp only [List.length_drop, List.length_cons] at *; omega) ch h

theorem splitListGo_nonfinal (c : Nat) (hc : 1 ≤ c) :
    ∀ (fuel : Nat) (l : List α), l.length ≤ fuel →
      ∀ i, i + 1 < (splitListGo c fuel l).length →
        ((splitListGo c fuel l).getD i []).length = c := by
  intro fuel
  induction fuel with
  | zero =>
      intro l hl i hi
      have : l = [] := List.eq_nil_of_length_eq_zero (Nat.le_zero.mp hl)
      subst this
      simp [splitListGo] at hi
  | succ n ih =>
      intro l hl i hi
      cases l with
      | nil => simp [splitListGo] at hi
      | cons a rest =>
          rw [splitListGo_cons] at hi ⊢
          cases i with
          | zero =>
              simp only [List.getD_cons_zero]
              -- more than one chunk, so the drop is non-empty and c < length
              have hne : (a :: rest).drop c ≠ [] := by
                intro hnil
                rw [hnil, splitListGo_nil] at hi
                simp at hi
              have hlen : c < (a :: rest).length := by
                by_contra hle
                exact hne (List.drop_eq_nil_of_le (by omega))
              simp only [List.length_take, List.length_cons] at *
              omega
          | succ j =>
              simp only [List.getD_cons_succ]
              exact ih ((a :: rest).drop c)
                (by simp only [List.length_drop, List.length_cons] at *; omega) j
                (by simpa using hi)

/-- The item loop builds exactly the filtered item list: folding the
conditional append over the items equals an append of the filter. -/
theorem extract_foldl_eq_filter (p : String × String → Bool) :
    ∀ (content : List (String × String)) (acc : List (String × String)),
      content.foldl
        (fun collected kv => if p kv then collected ++ [kv] else collected)
        acc = acc ++ content.filter p := by
  intro content
  induction content with
  | nil => intro acc; simp
  | cons kv rest ih =>
      intro acc
      by_cases h : p kv
      · simp [List.foldl_cons, h, ih, List.filter_cons]
      · simp [List.foldl_cons, h, ih, List.filter_cons]

/-! ## Lemmas about the retry loop -/

theorem chunkLoopGo_accept (backend : Nat → List String) (chunk : List String) :
    ∀ (remaining attempts : Nat) (out : List String),
      (chunkLoopGo backend chunk attempts remaining).1 = some out →
      chunk.length = out.length ∨
      (nonBlank chunk).length = (nonBlank out).length := by
  intro remaining
  induction remaining with
  | zero => intro attempts out h; simp [chunkLoopGo] at h
  | succ n ih =>
      intro attempts out h
      simp only [chunkLoopGo] at h
      by_cases h1 : chunk.length = (backend attempts).length
      · rw [if_pos h1] at h
        simp only [Option.some.injEq] at h
        subst h
        exact Or.inl h1
      · rw [if_neg h1] at h
        by_cases h2 : (nonBlank chunk).length = (nonBlank (backend attempts)).length
        · rw [if_pos h2] at h
          simp only [Option.some.injEq] at h
          subst h
          exact Or.inr h2
        · rw [if_neg h2] at h
          exact ih (attempts + 1) out h

theorem chunkLoopGo_mismatch (backend : Nat → List String) (chunk : List String) :
    ∀ (remaining attempts : Nat),
      (∀ n, attempts ≤ n → n < attempts + remaining →
        chunk.length ≠ (backend n).length ∧
        (nonBlank chunk).length ≠ (nonBlank (backend n)).length) →
      chunkLoopGo backend chunk attempts remaining = (none, remaining) := by
  intro remaining
  induction remaining with
  | zero => intro attempts _; rfl
  | succ n ih =>
      intro attempts h
      have h0 := h attempts (le_refl _) (by omega)
      simp only [chunkLoopGo]
      rw [if_neg h0.1, if_neg h0.2,
        ih (attempts + 1) (fun m hm1 hm2 => h m (by omega) (by omega))]

/-- The result map is the concatenation, in chunk order, of the per-chunk
contributions (each chunk's retry loop is independent of the others). -/
theorem foldl_append_eq_flatten {β γ : Type} (f : β → List γ) :
    ∀ (l : List β) (acc : List γ),
      l.foldl (fun m ch => m ++ f ch) acc = acc ++ (l.map f).flatten := by
  intro l
  induction l with
  | nil => intro acc; simp
  | cons b rest ih => intro acc; simp [ih]

theorem prepare_eq_flatten (backend : List String → Nat → List String)
    (c : Nat) (targets : List String) :
    prepare_translation backend c targets =
      ((split_list c targets).map
        (fun chunk => chunkContribution (backend chunk) chunk)).flatten := by
  have h := foldl_append_eq_flatten
    (fun chunk => chunkContribution (backend chunk) chunk)
    (split_list c targets) []
  rw [List.nil_append] at h
  exact h

/-- Zipping truncates at the shorter list: the keys that receive a binding
are exactly the first `l2.length` elements of `l1`. -/
theorem zip_map_fst_take {α β : Type} :
    ∀ (l1 : List α) (l2 : List β),
      (l1.zip l2).map Prod.fst = l1.take l2.length := by
  intro l1
  induction l1 with
  | nil => intro l2; simp
  | cons a rest ih =>
      intro l2
      cases l2 with
      | nil => simp
      | cons b l2rest => simp [ih]

/-- In a list with no duplicate first components, two members with the
same first component are the same pair. -/
theorem nodupKeys_eq {α β : Type} :
    ∀ (l : List (α × β)), (l.map Prod.fst).Nodup →
      ∀ p q : α × β, p ∈ l → q ∈ l → p.1 = q.1 → p = q := by
  intro l
  induction l with
  | nil => intro _ p q hp; simp at hp
  | cons a rest ih =>
      intro hn p q hp hq hfst
      simp only [List.map_cons, List.nodup_cons] at hn
      rcases List.mem_cons.mp hp with hp | hp <;>
        rcases List.mem_cons.mp hq with hq | hq
      · rw [hp, hq]
      · exfalso
        apply hn.1
        rw [List.mem_map]
        exact ⟨q, hq, by rw [← hfst, hp]⟩
      · exfalso
        apply hn.1
        rw [List.mem_map]
        exact ⟨p, hp, by rw [hfst, hq]⟩
      · exact ih hn.2 p q hp hq hfst

/-- The output of the quote-escaping scan has every `"` preceded by `\`
(with `prev` the character just before the scanned region, the same on
both sides). -/
theorem noUnescapedQuoteGo_escapeQuotesGo :
    ∀ (l : List Char) (prev : Option Char),
      noUnescapedQuoteGo prev (escapeQuotesGo prev l) = true := by
  intro l
  induction l with
  | nil => intro prev; rfl
  | cons c rest ih =>
      intro prev
      by_cases hc : c = '"'
      · subst hc
        by_cases hp : prev = some '\\'
        · rw [escapeQuotesGo, if_neg (by simp [hp])]
          rw [noUnescapedQuoteGo]
          simp [hp, ih]
        · rw [escapeQuotesGo, if_pos ⟨rfl, hp⟩]
          simp only [noUnescapedQuoteGo]
          simp [ih]
      · rw [escapeQuotesGo, if_neg (by simp [hc])]
        rw [noUnescapedQuoteGo]
        simp [hc, ih]

/-! ## Claims -/

/-- C5: for every input list of `N` elements and every chunk size `c ≥ 1`,
`split_list` returns exactly `⌈N/c⌉ = (N + c - 1) / c` chunks, each of at
most `c` elements, none empty, with every non-final chunk of exactly `c`
elements (only the final chunk may be shorter), and the concatenation of
the chunks in order is the input list. -/
theorem claim_C5_chunker {α : Type} (c : Nat) (l : List α) (hc : 1 ≤ c) :
    (split_list c l).length = (l.length + c - 1) / c ∧
    (∀ ch ∈ split_list c l, ch.length ≤ c ∧ ch ≠ []) ∧
    (∀ i, i + 1 < (split_list c l).length →
      ((split_list c l).getD i []).length = c) ∧
    (split_list c l).flatten = l :=
  ⟨splitListGo_length c hc l.length l le_rfl,
   splitListGo_chunks c hc l.length l le_rfl,
   splitListGo_nonfinal c hc l.length l le_rfl,
   splitListGo_join c hc l.length l le_rfl⟩

/-- Witness for C5 at `c = 2`, `l = [1,2,3,4,5]`. -/
theorem claim_C5_chunker_witness :
    1 ≤ 2 ∧
    ((split_list 2 [1,2,3,4,5]).length = ([1,2,3,4,5].length + 2 - 1) / 2 ∧
     (∀ ch ∈ split_list 2 [1,2,3,4,5], ch.length ≤ 2 ∧ ch ≠ []) ∧
     (∀ i, i + 1 < (split_list 2 [1,2,3,4,5]).length →
       ((split_list 2 [1,2,3,4,5]).getD i []).length = 2) ∧
     (split_list 2 [1,2,3,4,5]).flatten = [1,2,3,4,5]) :=
  ⟨by decide, claim_C5_chunker 2 [1,2,3,4,5] (by decide)⟩

/-- C7: the JSON-map extractor returns exactly the key/value pairs whose
key does not begin with `"_comment"` and whose value contains no
target-script code point (U+3040-U+30FF, U+3400-U+4DBF, U+4E00-U+9FFF);
on `{"a":"Hello","_comment1":"ignore","b":"こんにちは"}` it yields exactly
the single pair `("a","Hello")`. -/
theorem claim_C7_extractor :
    extract_map_from_json
        [("a", "Hello"), ("_comment1", "ignore"), ("b", "こんにちは")] =
      [("a", "Hello")] ∧
    ∀ content : List (String × String),
      extract_map_from_json content =
        content.filter
          (fun kv => !startsWithComment kv.1 && !containsTargetScript kv.2) := by
  constructor
  · decide
  · intro content
    have h := extract_foldl_eq_filter
      (fun kv => !startsWithComment kv.1 && !containsTargetScript kv.2)
      content []
    rw [List.nil_append] at h
    exact h

/-- C2: a chunk attempt's output is merged into the result map only when
the output line count equals the input line count, or — the fallback —
the non-blank line counts are equal; any other mismatch discards the
attempt wholesale, and every pair in the result map comes from a chunk
accepted under this rule (no partial acceptance within a chunk). -/
theorem claim_C2_accept_invariant :
    (∀ (backend : Nat → List String) (chunk out : List String),
      (chunkLoop backend chunk).1 = some out →
      chunk.length = out.length ∨
      (nonBlank chunk).length = (nonBlank out).length) ∧
    (∀ (backend : List String → Nat → List String) (c : Nat)
        (targets : List String) (p : String × String),
      p ∈ prepare_translation backend c targets →
      ∃ chunk out, chunk ∈ split_list c targets ∧
        (chunkLoop (backend chunk) chunk).1 = some out ∧
        (chunk.length = out.length ∨
          (nonBlank chunk).length = (nonBlank out).length) ∧
        p ∈ chunk.zip out) := by
  constructor
  · intro backend chunk out h
    exact chunkLoopGo_accept backend chunk MAX_ATTEMPTS 0 out h
  · intro backend c targets p hp
    rw [prepare_eq_flatten, List.mem_flatten] at hp
    obtain ⟨l, hl, hpl⟩ := hp
    rw [List.mem_map] at hl
    obtain ⟨chunk, hchunk, rfl⟩ := hl
    rcases hout : (chunkLoop (backend chunk) chunk).1 with _ | out
    · rw [chunkContribution, hout] at hpl
      simp at hpl
    · rw [chunkContribution, hout] at hpl
      exact ⟨chunk, out, hchunk, hout,
        chunkLoopGo_accept (backend chunk) chunk MAX_ATTEMPTS 0 out hout, hpl⟩

/-- Witness for C2: a chunk accepted by exact count, and a concrete merged
pair traced back to its accepted chunk. -/
theorem claim_C2_accept_invariant_witness :
    (["a"].length = ["x"].length ∨
      (nonBlank ["a"]).length = (nonBlank ["x"]).length) ∧
    (∃ chunk out, chunk ∈ split_list 1 ["a"] ∧
      (chunkLoop ((fun _ _ => ["x"]) chunk) chunk).1 = some out ∧
      (chunk.length = out.length ∨
        (nonBlank chunk).length = (nonBlank out).length) ∧
      ("a", "x") ∈ chunk.zip out) :=
  ⟨claim_C2_accept_invariant.1 (fun _ => ["x"]) ["a"] ["x"] (by decide),
   claim_C2_accept_invariant.2 (fun _ _ => ["x"]) 1 ["a"] ("a", "x") (by decide)⟩

/-- C3: a chunk on which every attempt yields both an exact and a
non-blank count mismatch calls the client exactly `MAX_ATTEMPTS = 5`
times, contributes no entry to the result map, and the pipeline still
processes every chunk independently (the result map is the concatenation
of the per-chunk contributions). -/
theorem claim_C3_retry_bound (backend : Nat → List String)
    (chunk : List String)
    (h : ∀ n, n < MAX_ATTEMPTS →
      chunk.length ≠ (backend n).length ∧
      (nonBlank chunk).length ≠ (nonBlank (backend n)).length) :
    MAX_ATTEMPTS = 5 ∧
    chunkLoop backend chunk = (none, MAX_ATTEMPTS) ∧
    chunkContribution backend chunk = [] ∧
    ∀ (B : List String → Nat → List String) (c : Nat)
      (targets : List String),
      prepare_translation B c targets =
        ((split_list c targets).map
          (fun ch => chunkContribution (B ch) ch)).flatten := by
  have hloop : chunkLoop backend chunk = (none, MAX_ATTEMPTS) :=
    chunkLoopGo_mismatch backend chunk MAX_ATTEMPTS 0
      (fun n _ hn2 => h n (by omega))
  refine ⟨rfl, hloop, ?_, ?_⟩
  · rw [chunkContribution, hloop]
  · intro B c targets
    exact prepare_eq_flatten B c targets

/-- Witness for C3: a backend that always returns zero lines against a
three-line chunk exhausts exactly 5 attempts and merges nothing. -/
theorem claim_C3_retry_bound_witness :
    MAX_ATTEMPTS = 5 ∧
    chunkLoop (fun _ => []) ["a", "b", "c"] = (none, MAX_ATTEMPTS) ∧
    chunkContribution (fun _ => []) ["a", "b", "c"] = [] ∧
    prepare_translation (fun _ _ => []) 3 ["a", "b", "c"] =
      ((split_list 3 ["a", "b", "c"]).map
        (fun ch =>
          chunkContribution ((fun _ _ => ([] : List String)) ch) ch)).flatten := by
  have h := claim_C3_retry_bound (fun _ => []) ["a", "b", "c"] (by decide)
  exact ⟨h.1, h.2.1, h.2.2.1, h.2.2.2 (fun _ _ => []) 3 ["a", "b", "c"]⟩

/-- C1 counterexample (Scenario D): chunk `["Hello","","World"]`, backend
always answering `["こんにちは","ワールド"]`.  The counts mismatch (3 vs 2)
but the non-blank counts match (2 vs 2), so the chunk is accepted via the
fallback — yet the merge zips the FULL lists: the blank source line
consumes `"ワールド"` (the translation of `"World"`), and `"World"` itself
receives no binding at all, contrary to the claimed per-non-blank-line
positional rule with an empty translation for the blank line. -/
theorem claim_C1_counterexample :
    (["Hello", "", "World"].length ≠ (["こんにちは", "ワールド"] : List String).length ∧
     (nonBlank ["Hello", "", "World"]).length =
       (nonBlank ["こんにちは", "ワールド"]).length) ∧
    prepare_translation (fun _ _ => ["こんにちは", "ワールド"]) 3
        ["Hello", "", "World"] =
      [("Hello", "こんにちは"), ("", "ワールド")] ∧
    dictLookup
        (prepare_translation (fun _ _ => ["こんにちは", "ワールド"]) 3
          ["Hello", "", "World"]) "World" = none ∧
    dictLookup
        (prepare_translation (fun _ _ => ["こんにちは", "ワールド"]) 3
          ["Hello", "", "World"]) "" = some "ワールド" := by
  decide

/-- C1 amended: a chunk accepted via the non-blank fallback is bound by
zipping the FULL input list with the FULL output list, truncated at the
shorter side — so exactly the first `out.length` input lines (blank or
not) receive a translation, a blank input line consumes an output line,
and on Scenario D the result is `Hello→こんにちは`, `(blank)→ワールド`,
with `World` left unbound. -/
theorem claim_C1_fallback_binding :
    (∀ (backend : Nat → List String) (chunk out : List String),
      (chunkLoop backend chunk).1 = some out →
      chunkContribution backend chunk = chunk.zip out ∧
      (chunk.zip out).map Prod.fst = chunk.take out.length) ∧
    prepare_translation (fun _ _ => ["こんにちは", "ワールド"]) 3
        ["Hello", "", "World"] =
      [("Hello", "こんにちは"), ("", "ワールド")] := by
  constructor
  · intro backend chunk out h
    constructor
    · rw [chunkContribution, h]
    · exact zip_map_fst_take chunk out
  · decide

/-- Witness for C1's amended statement at the Scenario D chunk. -/
theorem claim_C1_fallback_binding_witness :
    (chunkContribution (fun _ => ["こんにちは", "ワールド"])
        ["Hello", "", "World"] =
      ["Hello", "", "World"].zip ["こんにちは", "ワールド"] ∧
     ((["Hello", "", "World"].zip ["こんにちは", "ワールド"]).map Prod.fst =
       ["Hello", "", "World"].take
         (["こんにちは", "ワールド"] : List String).length)) ∧
    prepare_translation (fun _ _ => ["こんにちは", "ワールド"]) 3
        ["Hello", "", "World"] =
      [("Hello", "こんにちは"), ("", "ワールド")] :=
  ⟨claim_C1_fallback_binding.1 (fun _ => ["こんにちは", "ワールド"])
      ["Hello", "", "World"] ["こんにちは", "ワールド"] (by decide),
   claim_C1_fallback_binding.2⟩

/-- If the very first attempt matches the exact line count, the loop
accepts it immediately with a single client call. -/
theorem chunkLoop_first_exact (backend : Nat → List String)
    (chunk : List String) (h : chunk.length = (backend 0).length) :
    chunkLoop backend chunk = (some (backend 0), 1) := by
  show chunkLoopGo backend chunk 0 (4 + 1) = _
  rw [chunkLoopGo]
  simp only [if_pos h]

/-- C4 counterexample: on a backend failure (an exception, or a response
without a usable message) the client returns the empty line list through
its ordinary return path — there is no `BackendError` (nor any error
value) raised to the caller. -/
theorem claim_C4_counterexample :
    (translate_with_chatgpt ["Hello"]
        (.exception "Connection error") 0 180).1 = [] ∧
    (translate_with_chatgpt ["Hello"] .emptyResponse 0 180).1 = [] :=
  ⟨rfl, rfl⟩

/-- C4 amended: whenever the backend call cannot complete (exception:
network, auth, ...; or a response with no usable choices/message), the
client logs an error and returns the empty line list through its
ordinary return path, as if it were an (empty) result; no error is
raised to the caller. -/
theorem claim_C4_failure_returns_empty :
    ∀ (input : List String) (msg : String) (elapsed timeout : Nat),
      (translate_with_chatgpt input (.exception msg) elapsed timeout).1 = [] ∧
      (translate_with_chatgpt input .emptyResponse elapsed timeout).1 = [] ∧
      (translate_with_chatgpt input (.exception msg) elapsed timeout).2 ≠ [] ∧
      (translate_with_chatgpt input .emptyResponse elapsed timeout).2 ≠ [] := by
  intro input msg elapsed timeout
  refine ⟨rfl, rfl, ?_, ?_⟩
  · show (if elapsed > timeout then
        ["Timeout reached while waiting for translation."]
      else []) ++ ["Error during translation: " ++ msg] ≠ []
    simp
  · simp [translate_with_chatgpt]

/-- C8: the result of the translation client is the same for every value
of the timeout argument (a two-run noninterference statement): the
timeout never affects — let alone cancels — the backend call's outcome;
it feeds only the log messages. -/
theorem claim_C8_timeout_noninterference :
    ∀ (input : List String) (outcome : BackendOutcome)
      (elapsed t1 t2 : Nat),
      (translate_with_chatgpt input outcome elapsed t1).1 =
        (translate_with_chatgpt input outcome elapsed t2).1 := by
  intro input outcome elapsed t1 t2
  cases outcome <;> rfl

/-- C9: on a one-element chunk every successful backend response yields a
line list of length exactly 1 (newlines in the content are deleted, not
split on), so with the default `CHUNK_SIZE = 1` the retry loop's exact
line-count check succeeds on the first successful attempt. -/
theorem claim_C9_single_line_chunk (input : List String) (content : String)
    (elapsed timeout : Nat) (h : input.length = 1) :
    CHUNK_SIZE = 1 ∧
    (translate_with_chatgpt input (.success content) elapsed timeout).1 =
      [escapeQuotes (removeNewlines content)] ∧
    input.length =
      ((translate_with_chatgpt input (.success content) elapsed timeout).1).length ∧
    (chunkLoop
        (fun _ =>
          (translate_with_chatgpt input (.success content) elapsed timeout).1)
        input).1 =
      some (translate_with_chatgpt input (.success content) elapsed timeout).1 := by
  have hres : (translate_with_chatgpt input (.success content) elapsed timeout).1 =
      [escapeQuotes (removeNewlines content)] := by
    show ((if input.length > 1 then pySplitlines content
      else [removeNewlines content]).map escapeQuotes) = _
    rw [if_neg (by omega)]
    rfl
  have hlen : input.length =
      ((translate_with_chatgpt input (.success content) elapsed timeout).1).length := by
    rw [hres, h]
    rfl
  exact ⟨rfl, hres, hlen,
    by rw [chunkLoop_first_exact _ input hlen]⟩

/-- Witness for C9 on the chunk `["Hello"]` with a two-line response. -/
theorem claim_C9_single_line_chunk_witness :
    (["Hello"] : List String).length = 1 ∧
    (CHUNK_SIZE = 1 ∧
     (translate_with_chatgpt ["Hello"] (.success "こんに\nちは") 0 180).1 =
       [escapeQuotes (removeNewlines "こんに\nちは")] ∧
     (["Hello"] : List String).length =
       ((translate_with_chatgpt ["Hello"] (.success "こんに\nちは") 0 180).1).length ∧
     (chunkLoop
         (fun _ =>
           (translate_with_chatgpt ["Hello"] (.success "こんに\nちは") 0 180).1)
         ["Hello"]).1 =
       some (translate_with_chatgpt ["Hello"] (.success "こんに\nちは") 0 180).1) :=
  ⟨by decide,
   claim_C9_single_line_chunk ["Hello"] "こんに\nちは" 0 180 (by decide)⟩

/-- C10: every line returned by a successful client call has already been
quote-escaped inside the client (before the retry loop sees it for count
validation): no returned line contains a `"` that is not immediately
preceded by a `\`. -/
theorem claim_C10_quotes_escaped :
    ∀ (input : List String) (outcome : BackendOutcome)
      (elapsed timeout : Nat),
      ((translate_with_chatgpt input outcome elapsed timeout).1).all
        noUnescapedQuote = true := by
  intro input outcome elapsed timeout
  cases outcome with
  | success content =>
      show ((if input.length > 1 then pySplitlines content
        else [removeNewlines content]).map escapeQuotes).all
          noUnescapedQuote = true
      rw [List.all_eq_true]
      intro s hs
      rw [List.mem_map] at hs
      obtain ⟨t, _, rfl⟩ := hs
      exact noUnescapedQuoteGo_escapeQuotesGo t.data none
  | emptyResponse => rfl
  | exception msg => rfl

/-- C6: after a full map-mode run (`translate_from_jar`), every extracted
unit's key is in exactly one of the two persisted maps — the resolved
translations (`translated_targets`) or the unresolved residue
(`untranslated_items`) — never both, never neither.  `targets` is a
Python dict, so its keys are assumed distinct. -/
theorem claim_C6_resolved_unresolved_partition
    (backend : List String → Nat → List String) (c : Nat)
    (targets : List (String × String)) (tm : List (String × String))
    (htm : tm = prepare_translation backend c (targets.map Prod.snd))
    (hn : (targets.map Prod.fst).Nodup)
    (p : String × String) (hp : p ∈ targets) :
    (p.1 ∈ (translated_targets targets tm).map Prod.fst ∧
      p.1 ∉ (untranslated_items targets tm).map Prod.fst) ∨
    (p.1 ∉ (translated_targets targets tm).map Prod.fst ∧
      p.1 ∈ (untranslated_items targets tm).map Prod.fst) := by
  by_cases hk : dictLookup tm p.2 = none
  · right
    constructor
    · intro hmem
      rw [List.mem_map] at hmem
      obtain ⟨q', hq', hfst⟩ := hmem
      rw [translated_targets, List.mem_filterMap] at hq'
      obtain ⟨q, hq, hfq⟩ := hq'
      rcases hlq : dictLookup tm q.2 with _ | v
      · rw [hlq] at hfq
        simp at hfq
      · rw [hlq] at hfq
        simp at hfq
        have hq1 : q.1 = p.1 := by rw [← hfst, ← hfq]
        have : q = p := nodupKeys_eq targets hn q p hq hp hq1
        rw [this] at hlq
        rw [hlq] at hk
        exact Option.noConfusion hk
    · rw [List.mem_map]
      refine ⟨p, ?_, rfl⟩
      rw [untranslated_items, List.mem_filter]
      exact ⟨hp, by rw [hk]; rfl⟩
  · left
    obtain ⟨v, hv⟩ := Option.ne_none_iff_exists'.mp hk
    constructor
    · rw [List.mem_map]
      refine ⟨(p.1, v), ?_, rfl⟩
      rw [translated_targets, List.mem_filterMap]
      exact ⟨p, hp, by rw [hv]; rfl⟩
    · intro hmem
      rw [List.mem_map] at hmem
      obtain ⟨q, hq, hfst⟩ := hmem
      rw [untranslated_items, List.mem_filter] at hq
      have : q = p := nodupKeys_eq targets hn q p hq.1 hp hfst
      rw [this, hv] at hq
      simp at hq

/-- Witness for C6: one mod key whose original text the run resolves. -/
theorem claim_C6_resolved_unresolved_partition_witness :
    ("k" ∈ (translated_targets [("k", "Hello")]
        (prepare_translation (fun _ _ => ["T"]) 1
          ([("k", "Hello")].map Prod.snd))).map Prod.fst ∧
      "k" ∉ (untranslated_items [("k", "Hello")]
        (prepare_translation (fun _ _ => ["T"]) 1
          ([("k", "Hello")].map Prod.snd))).map Prod.fst) ∨
    ("k" ∉ (translated_targets [("k", "Hello")]
        (prepare_translation (fun _ _ => ["T"]) 1
          ([("k", "Hello")].map Prod.snd))).map Prod.fst ∧
      "k" ∈ (untranslated_items [("k", "Hello")]
        (prepare_translation (fun _ _ => ["T"]) 1
          ([("k", "Hello")].map Prod.snd))).map Prod.fst) :=
  claim_C6_resolved_unresolved_partition (fun _ _ => ["T"]) 1
    [("k", "Hello")] _ rfl (by decide) ("k", "Hello") (by decide)

end Localizer
